import Mathlib

/-!
Verification of the transaction-processor specification against a shallow
embedding of the code of the repository.

The driver of the repository (`src/main.rs`, function `process_csv` and `main`,
with its unit tests) is embedded directly.  The modules `account.rs`,
`ledger.rs` and `transaction.rs` are declared by `main.rs` but their sources
are not in the repository snapshot; the corresponding definitions below are
modelled from the specification (sections 3, 4.1, 4.2, 6 and 7) and are
marked as such in their doc comments.  Amounts are `rust_decimal::Decimal`
values in the code (exact decimal arithmetic); they are embedded as `Rat`,
on which addition, subtraction and order are likewise exact.
-/

namespace TxProc

/-- Account identifier (`AccountId` newtype over an integer in the code). -/
abbrev AccountId := Nat

/-- Transaction identifier. -/
abbrev TxId := Nat

/-- Per-client account state.  Modelled from the spec: `account.rs` is not in
the snapshot.  `available` and `held` are the stored balances and `locked` the
chargeback flag; `total` is a derived query, see `Account.total`. -/
structure Account where
  available : Rat
  held : Rat
  locked : Bool
deriving DecidableEq, Repr

/-- Modelled from the spec: `total` is derived, always `available + held`,
never stored independently. -/
def Account.total (a : Account) : Rat := a.available + a.held

/-- Kind of a recorded transaction. -/
inductive TxKind
  | deposit
  | withdrawal
deriving DecidableEq, Repr

/-- Dispute lifecycle status of a transaction record:
`clean → disputed → {resolved, chargedBack}`. -/
inductive DisputeStatus
  | clean
  | disputed
  | resolved
  | chargedBack
deriving DecidableEq, Repr

/-- A ledger log entry for an accepted deposit or withdrawal.  Modelled from
the spec (`transaction.rs`/`ledger.rs` are not in the snapshot). -/
structure TransactionRecord where
  account : AccountId
  kind : TxKind
  amount : Rat
  status : DisputeStatus
deriving DecidableEq, Repr

/-- Association-list embedding of the `HashMap`s used by the code; the value
semantics (lookup, insert-or-replace) is all the processing logic uses. -/
abbrev AccountMap := List (AccountId × Account)

/-- Transaction-id-keyed record table owned by the ledger. -/
abbrev TxMap := List (TxId × TransactionRecord)

/-- Key lookup in an association list (the `HashMap::get` of the code). -/
def lookupA {α : Type} (k : Nat) : List (Nat × α) → Option α
  | [] => none
  | (k', v) :: rest => if k = k' then some v else lookupA k rest

/-- Insert-or-replace in an association list (the `HashMap::insert` of the
code); an absent key is appended, a present key is replaced in place. -/
def setA {α : Type} (m : List (Nat × α)) (k : Nat) (v : α) : List (Nat × α) :=
  match m with
  | [] => [(k, v)]
  | (k', v') :: rest => if k = k' then (k, v) :: rest else (k', v') :: setA rest k v

/-- A well-formed instruction, the closed tagged union the Ledger processes.
Modelled from the spec: dispute-family instructions carry no amount. -/
inductive Transaction
  | deposit (client : AccountId) (tx : TxId) (amount : Rat)
  | withdrawal (client : AccountId) (tx : TxId) (amount : Rat)
  | dispute (client : AccountId) (tx : TxId)
  | resolve (client : AccountId) (tx : TxId)
  | chargeback (client : AccountId) (tx : TxId)
deriving DecidableEq, Repr

/-- Logical failure kinds returned by the Ledger.  Modelled from the list of
error conditions in the spec; each carries the context its message needs
(for instance the insufficient-funds message
"Transaction #5 for account #2 cannot withdraw 3 due to insufficient funds"
needs the transaction, the account and the requested amount). -/
inductive ProcessingError
  | duplicateTransactionId (tx : TxId)
  | accountNotFound (client : AccountId)
  | accountLocked (client : AccountId)
  | insufficientFunds (tx : TxId) (client : AccountId) (requested : Rat) (available : Rat)
  | transactionNotFound (tx : TxId)
  | transactionOwnerMismatch (tx : TxId) (client : AccountId)
  | transactionNotDisputable (tx : TxId)
  | transactionNotDisputed (tx : TxId)
deriving DecidableEq, Repr

/-- Single public operation of the Ledger.  Modelled from the spec, section
4.2 (`ledger.rs` is not in the snapshot): validates the instruction against
the current account map and record table and either returns the fully
committed new state or a typed failure with nothing committed. -/
def processTransaction (accounts : AccountMap) (txs : TxMap) :
    Transaction → Except ProcessingError (AccountMap × TxMap)
  | .deposit client tx amount =>
    match lookupA tx txs with
    | some _ => .error (.duplicateTransactionId tx)
    | none =>
      match lookupA client accounts with
      | some acct =>
        if acct.locked then .error (.accountLocked client)
        else .ok (setA accounts client { acct with available := acct.available + amount },
                  setA txs tx ⟨client, .deposit, amount, .clean⟩)
      | none =>
        .ok (setA accounts client ⟨amount, 0, false⟩,
             setA txs tx ⟨client, .deposit, amount, .clean⟩)
  | .withdrawal client tx amount =>
    match lookupA client accounts with
    | none => .error (.accountNotFound client)
    | some acct =>
      if acct.locked then .error (.accountLocked client)
      else if acct.available < amount then
        .error (.insufficientFunds tx client amount acct.available)
      else
        match lookupA tx txs with
        | some _ => .error (.duplicateTransactionId tx)
        | none => .ok (setA accounts client { acct with available := acct.available - amount },
                       setA txs tx ⟨client, .withdrawal, amount, .clean⟩)
  | .dispute client tx =>
    match lookupA tx txs with
    | none => .error (.transactionNotFound tx)
    | some rec =>
      if rec.account = client then
        match lookupA client accounts with
        | none => .error (.accountNotFound client)
        | some acct =>
          if acct.locked then .error (.accountLocked client)
          else if rec.status = .clean then
            let acct' := match rec.kind with
              | .deposit =>
                { acct with available := acct.available - rec.amount, held := acct.held + rec.amount }
              | .withdrawal => { acct with held := acct.held + rec.amount }
            .ok (setA accounts client acct', setA txs tx { rec with status := .disputed })
          else .error (.transactionNotDisputable tx)
      else .error (.transactionOwnerMismatch tx client)
  | .resolve client tx =>
    match lookupA tx txs with
    | none => .error (.transactionNotFound tx)
    | some rec =>
      if rec.account = client then
        match lookupA client accounts with
        | none => .error (.accountNotFound client)
        | some acct =>
          if acct.locked then .error (.accountLocked client)
          else if rec.status = .disputed then
            let acct' := match rec.kind with
              | .deposit =>
                { acct with available := acct.available + rec.amount, held := acct.held - rec.amount }
              | .withdrawal => { acct with held := acct.held - rec.amount }
            .ok (setA accounts client acct', setA txs tx { rec with status := .resolved })
          else .error (.transactionNotDisputed tx)
      else .error (.transactionOwnerMismatch tx client)
  | .chargeback client tx =>
    match lookupA tx txs with
    | none => .error (.transactionNotFound tx)
    | some rec =>
      if rec.account = client then
        match lookupA client accounts with
        | none => .error (.accountNotFound client)
        | some acct =>
          if acct.locked then .error (.accountLocked client)
          else if rec.status = .disputed then
            .ok (setA accounts client { acct with held := acct.held - rec.amount, locked := true },
                 setA txs tx { rec with status := .chargedBack })
          else .error (.transactionNotDisputed tx)
      else .error (.transactionOwnerMismatch tx client)

/-- The instruction type tag of one CSV row. -/
inductive RecordType
  | deposit
  | withdrawal
  | dispute
  | resolve
  | chargeback
deriving DecidableEq, Repr

/-- One row of the input stream as the CSV layer hands it over: either a row
that cannot be decoded at all (missing field, unknown type tag), or a decoded
record with its optional amount column. -/
inductive RawInput
  | malformed (msg : String)
  | record (rtype : RecordType) (client : AccountId) (tx : TxId) (amount : Option Rat)
deriving DecidableEq, Repr

/-- Parse-stage failure kinds.  Modelled from the spec and the unit tests of
`main.rs`: a missing amount ("Transaction requires a defined amount") is a
distinct failure from a non-positive one ("Transaction requires a positive
amount"). -/
inductive ParseError
  | malformedRow (msg : String)
  | amountMissing
  | amountNotPositive
deriving DecidableEq, Repr

/-- Decoding a raw row into a well-formed instruction.  Modelled from the
spec, section 6 (`transaction.rs` is not in the snapshot): deposit and
withdrawal require a present, strictly positive amount; the dispute family
ignores the amount column. -/
def parseRecord : RawInput → Except ParseError Transaction
  | .malformed msg => .error (.malformedRow msg)
  | .record t client tx amt =>
    match t with
    | .deposit =>
      match amt with
      | none => .error .amountMissing
      | some a => if a ≤ 0 then .error .amountNotPositive else .ok (.deposit client tx a)
    | .withdrawal =>
      match amt with
      | none => .error .amountMissing
      | some a => if a ≤ 0 then .error .amountNotPositive else .ok (.withdrawal client tx a)
    | .dispute => .ok (.dispute client tx)
    | .resolve => .ok (.resolve client tx)
    | .chargeback => .ok (.chargeback client tx)

/-- One entry of the single failure list `process_csv` accumulates: the code
pushes parse errors and ledger errors into the same `Vec<anyhow::Error>`. -/
inductive Failure
  | parse (e : ParseError)
  | logic (e : ProcessingError)
deriving DecidableEq, Repr

/-- Running state of the driver: the account map it owns, the record table
of the ledger, and the accumulated failure list. -/
structure DriverState where
  accounts : AccountMap
  txs : TxMap
  errors : List Failure
deriving DecidableEq, Repr

/-- Processing of one row by the driver loop of `process_csv`: a parse or
ledger failure is appended to the failure list and the state is otherwise
kept; a success installs the committed state. -/
def processRow (s : DriverState) (r : RawInput) : DriverState :=
  match parseRecord r with
  | .error e => { s with errors := s.errors ++ [.parse e] }
  | .ok t =>
    match processTransaction s.accounts s.txs t with
    | .error e => { s with errors := s.errors ++ [.logic e] }
    | .ok (a, x) => { s with accounts := a, txs := x }

/-- The driver loop of `process_csv` over the remaining rows. -/
def processRows : List RawInput → DriverState → DriverState
  | [], s => s
  | r :: rest, s => processRows rest (processRow s r)

/-- Embedding of `process_csv` (src/main.rs, lines 49-64): traverses the rows
with a fresh ledger, starting from the given account map, and returns the
final account map together with all accumulated failures. -/
def process_csv (rows : List RawInput) (accounts : AccountMap) :
    AccountMap × List Failure :=
  let s := processRows rows ⟨accounts, [], []⟩
  (s.accounts, s.errors)

/-- The client an input row targets, if the row decodes at all. -/
def rowClient : RawInput → Option AccountId
  | .malformed _ => none
  | .record _ client _ _ => some client

/-- The client field of a well-formed instruction. -/
def clientTx : Transaction → AccountId
  | .deposit client _ _ => client
  | .withdrawal client _ _ => client
  | .dispute client _ => client
  | .resolve client _ => client
  | .chargeback client _ => client

/-- Whether an input row is a dispute instruction. -/
def isDisputeRow : RawInput → Bool
  | .record .dispute _ _ _ => true
  | _ => false

/-- Amount positivity guaranteed by the parse stage for deposit and
withdrawal instructions. -/
def posTx : Transaction → Prop
  | .deposit _ _ amount => 0 < amount
  | .withdrawal _ _ amount => 0 < amount
  | .dispute _ _ => True
  | .resolve _ _ => True
  | .chargeback _ _ => True

/-- Contribution of one transaction record to the held balance of account
`a`: its amount when it is a currently disputed record of `a`, else zero. -/
def contrib (a : AccountId) (rec : TransactionRecord) : Rat :=
  if rec.account = a ∧ rec.status = .disputed then rec.amount else 0

/-- Sum of the amounts of the currently disputed records of account `a`. -/
def heldSum (a : AccountId) : TxMap → Rat
  | [] => 0
  | (_, rec) :: rest => contrib a rec + heldSum a rest

/-- The per-row failure entry (at most one) that the driver appends for a
row processed in state `s`. -/
def rowFailure (s : DriverState) (r : RawInput) : List Failure :=
  match parseRecord r with
  | .error e => [.parse e]
  | .ok t =>
    match processTransaction s.accounts s.txs t with
    | .error e => [.logic e]
    | .ok _ => []

/-- The ordered failure trace of a row list processed from state `s`. -/
def failTrace (s : DriverState) : List RawInput → List Failure
  | [] => []
  | r :: rest => rowFailure s r ++ failTrace (processRow s r) rest

/-- The per-account output lines of `main`, as the tuple of printed fields,
given the order in which the account map is enumerated (the code iterates a
`HashMap`, which fixes no enumeration order). -/
def outputLines (accounts : AccountMap) (order : List AccountId) :
    List (AccountId × Rat × Rat × Rat × Bool) :=
  order.filterMap fun a =>
    (lookupA a accounts).map fun acct => (a, acct.available, acct.held, acct.total, acct.locked)

/-- Ledger state invariant: recorded amounts are positive, the account of
every record exists, and the held balance of each account is the sum of the
amounts of its currently disputed records. -/
structure LedgerInv (accounts : AccountMap) (txs : TxMap) : Prop where
  amounts_pos : ∀ p ∈ txs, 0 < (p.2 : TransactionRecord).amount
  acct_exists : ∀ p ∈ txs, (lookupA (p.2 : TransactionRecord).account accounts).isSome
  held_eq : ∀ a acct, lookupA a accounts = some acct → acct.held = heldSum a txs

/-- Account-map invariant: every stored available balance is non-negative. -/
def availNonneg (accounts : AccountMap) : Prop :=
  ∀ a acct, lookupA a accounts = some acct → 0 ≤ acct.available

section MapLemmas

variable {α : Type}

theorem lookupA_setA_self (m : List (Nat × α)) (k : Nat) (v : α) :
    lookupA k (setA m k v) = some v := by
  induction m with
  | nil => simp [setA, lookupA]
  | cons p rest ih =>
    obtain ⟨k', v'⟩ := p
    by_cases h : k = k' <;> simp [setA, lookupA, h, ih]

theorem lookupA_setA_ne (m : List (Nat × α)) (k j : Nat) (v : α) (h : j ≠ k) :
    lookupA j (setA m k v) = lookupA j m := by
  induction m with
  | nil => simp [setA, lookupA, h]
  | cons p rest ih =>
    obtain ⟨k', v'⟩ := p
    by_cases hk : k = k'
    · subst hk
      simp [setA, lookupA, h]
    · by_cases hj : j = k' <;> simp [setA, lookupA, hk, hj, ih]

theorem setA_eq_append (m : List (Nat × α)) (k : Nat) (v : α)
    (h : lookupA k m = none) : setA m k v = m ++ [(k, v)] := by
  induction m with
  | nil => simp [setA]
  | cons p rest ih =>
    obtain ⟨k', v'⟩ := p
    by_cases hk : k = k'
    · simp [lookupA, hk] at h
    · simp [lookupA, hk] at h
      simp [setA, hk, ih h]

theorem mem_setA {m : List (Nat × α)} {k : Nat} {v : α} {p : Nat × α}
    (h : p ∈ setA m k v) : p = (k, v) ∨ p ∈ m := by
  induction m with
  | nil => simpa [setA] using h
  | cons q rest ih =>
    obtain ⟨k', v'⟩ := q
    by_cases hk : k = k'
    · simp [setA, hk] at h
      rcases h with h | h
      · exact Or.inl (by simp [h, hk])
      · exact Or.inr (by simp [h])
    · simp [setA, hk] at h
      rcases h with h | h
      · exact Or.inr (by simp [h])
      · rcases ih h with h' | h'
        · exact Or.inl h'
        · exact Or.inr (by simp [h'])

theorem isSome_lookupA_setA (m : List (Nat × α)) (k j : Nat) (v : α)
    (h : (lookupA j m).isSome) : (lookupA j (setA m k v)).isSome := by
  by_cases hj : j = k
  · subst hj
    simp [lookupA_setA_self]
  · rwa [lookupA_setA_ne m k j v hj]

theorem lookupA_mem {m : List (Nat × α)} {k : Nat} {v : α}
    (h : lookupA k m = some v) : (k, v) ∈ m := by
  induction m with
  | nil => simp [lookupA] at h
  | cons p rest ih =>
    obtain ⟨k', v'⟩ := p
    by_cases hk : k = k'
    · simp [lookupA, hk] at h
      simp [hk, h]
    · simp [lookupA, hk] at h
      simp [ih h]

end MapLemmas

theorem heldSum_append (a : AccountId) (l₁ l₂ : TxMap) :
    heldSum a (l₁ ++ l₂) = heldSum a l₁ + heldSum a l₂ := by
  induction l₁ with
  | nil => simp [heldSum]
  | cons p rest ih =>
    obtain ⟨k, rec⟩ := p
    simp [heldSum, ih]
    ring

theorem contrib_nonneg {a : AccountId} {rec : TransactionRecord}
    (h : 0 < rec.amount) : 0 ≤ contrib a rec := by
  unfold contrib
  split
  · exact le_of_lt h
  · exact le_refl 0

theorem heldSum_nonneg {a : AccountId} {l : TxMap}
    (h : ∀ p ∈ l, 0 < (p.2 : TransactionRecord).amount) : 0 ≤ heldSum a l := by
  induction l with
  | nil => simp [heldSum]
  | cons p rest ih =>
    obtain ⟨k, rec⟩ := p
    have h1 : 0 < rec.amount := h (k, rec) (by simp)
    have h2 : 0 ≤ heldSum a rest := ih fun q hq => h q (by simp [hq])
    have := contrib_nonneg (a := a) h1
    simp only [heldSum]
    linarith

theorem heldSum_eq_zero {a : AccountId} {l : TxMap}
    (h : ∀ p ∈ l, (p.2 : TransactionRecord).account ≠ a) : heldSum a l = 0 := by
  induction l with
  | nil => simp [heldSum]
  | cons p rest ih =>
    obtain ⟨k, rec⟩ := p
    have h1 : rec.account ≠ a := h (k, rec) (by simp)
    have h2 := ih fun q hq => h q (by simp [hq])
    simp [heldSum, contrib, h1, h2]

theorem heldSum_setA {l : TxMap} {tx : TxId} {rec : TransactionRecord}
    (a : AccountId) (rec' : TransactionRecord) (h : lookupA tx l = some rec) :
    heldSum a (setA l tx rec') = heldSum a l - contrib a rec + contrib a rec' := by
  induction l with
  | nil => simp [lookupA] at h
  | cons p rest ih =>
    obtain ⟨k, r⟩ := p
    by_cases hk : tx = k
    · simp [lookupA, hk] at h
      subst h
      simp [setA, hk, heldSum]
      ring
    · simp [lookupA, hk] at h
      simp [setA, hk, heldSum, ih h]
      ring

theorem parse_clientTx {ty : RecordType} {c : AccountId} {tx : TxId} {amt : Option Rat}
    {t : Transaction} (h : parseRecord (.record ty c tx amt) = .ok t) : clientTx t = c := by
  cases ty <;> cases amt <;> simp only [parseRecord] at h <;> (repeat' split at h) <;>
    simp only [Except.ok.injEq, reduceCtorEq] at h <;> first
      | exact absurd h (fun hf => hf)
      | (subst h; rfl)

theorem parse_posTx {r : RawInput} {t : Transaction}
    (h : parseRecord r = .ok t) : posTx t := by
  cases r with
  | malformed msg => simp [parseRecord] at h
  | record ty c tx amt =>
    cases ty <;> cases amt <;> simp only [parseRecord] at h <;> (repeat' split at h) <;>
      simp only [Except.ok.injEq, reduceCtorEq] at h
    all_goals first
      | exact absurd h (fun hf => hf)
      | (subst h; simp_all [posTx]; try linarith)

theorem parse_isDispute {r : RawInput} {c : AccountId} {tx : TxId}
    (h : parseRecord r = .ok (.dispute c tx)) : isDisputeRow r = true := by
  cases r with
  | malformed msg => simp [parseRecord] at h
  | record ty c' tx' amt =>
    cases ty <;> cases amt <;> simp only [parseRecord] at h <;> (repeat' split at h) <;>
      simp_all [isDisputeRow]

theorem processTransaction_frame (b : AccountId) {accounts : AccountMap} {txs : TxMap}
    {t : Transaction} {a' : AccountMap} {x' : TxMap}
    (hb : b ≠ clientTx t)
    (h : processTransaction accounts txs t = .ok (a', x')) :
    lookupA b a' = lookupA b accounts := by
  cases t <;> simp only [clientTx] at hb <;> simp only [processTransaction] at h <;>
    (repeat' split at h) <;>
    simp only [Except.ok.injEq, Prod.mk.injEq, reduceCtorEq] at h
  all_goals
    obtain ⟨h1, h2⟩ := h
  all_goals
    subst h1
  all_goals
    exact lookupA_setA_ne _ _ _ _ hb

theorem processTransaction_locked {accounts : AccountMap} {txs : TxMap}
    {t : Transaction} {acct : Account} {res : AccountMap × TxMap}
    (hacct : lookupA (clientTx t) accounts = some acct)
    (hlock : acct.locked = true) :
    processTransaction accounts txs t ≠ .ok res := by
  intro h
  cases t <;> simp only [clientTx] at hacct <;> simp only [processTransaction] at h <;>
    (repeat' split at h) <;> simp_all

theorem LedgerInv.insert_clean {accounts : AccountMap} {txs : TxMap}
    (inv : LedgerInv accounts txs) (client : AccountId) (tx : TxId)
    (kind : TxKind) (amount : Rat) (acctNew : Account)
    (hpos : 0 < amount) (hfresh : lookupA tx txs = none)
    (hheld : acctNew.held = heldSum client txs) :
    LedgerInv (setA accounts client acctNew)
      (setA txs tx ⟨client, kind, amount, .clean⟩) := by
  have happ := setA_eq_append txs tx (⟨client, kind, amount, .clean⟩ : TransactionRecord) hfresh
  refine ⟨?_, ?_, ?_⟩
  · intro p hp
    rcases mem_setA hp with h | h
    · subst h; exact hpos
    · exact inv.amounts_pos p h
  · intro p hp
    rcases mem_setA hp with h | h
    · subst h
      simp [lookupA_setA_self]
    · exact isSome_lookupA_setA _ _ _ _ (inv.acct_exists p h)
  · intro b acctb hb
    have hsum : heldSum b (setA txs tx ⟨client, kind, amount, .clean⟩) = heldSum b txs := by
      rw [happ, heldSum_append]
      simp [heldSum, contrib]
    rw [hsum]
    by_cases hbc : b = client
    · subst hbc
      rw [lookupA_setA_self] at hb
      injection hb with hb
      subst hb
      exact hheld
    · rw [lookupA_setA_ne _ _ _ _ hbc] at hb
      exact inv.held_eq b acctb hb

theorem LedgerInv.set_status {accounts : AccountMap} {txs : TxMap}
    (inv : LedgerInv accounts txs)
    {client : AccountId} {tx : TxId} {rec : TransactionRecord}
    (hrec : lookupA tx txs = some rec) (hcl : rec.account = client)
    {acct : Account} (hacct : lookupA client accounts = some acct)
    (newStatus : DisputeStatus) (acctNew : Account)
    (hheld : acctNew.held =
      acct.held - contrib client rec + contrib client { rec with status := newStatus }) :
    LedgerInv (setA accounts client acctNew) (setA txs tx { rec with status := newStatus }) := by
  refine ⟨?_, ?_, ?_⟩
  · intro p hp
    rcases mem_setA hp with h | h
    · subst h
      exact inv.amounts_pos (tx, rec) (lookupA_mem hrec)
    · exact inv.amounts_pos p h
  · intro p hp
    rcases mem_setA hp with h | h
    · subst h
      simp only [hcl]
      simp [lookupA_setA_self]
    · exact isSome_lookupA_setA _ _ _ _ (inv.acct_exists p h)
  · intro b acctb hb
    rw [heldSum_setA b _ hrec]
    by_cases hbc : b = client
    · subst hbc
      rw [lookupA_setA_self] at hb
      injection hb with hb
      subst hb
      rw [hheld, inv.held_eq b acct hacct]
    · rw [lookupA_setA_ne _ _ _ _ hbc] at hb
      have hab : rec.account ≠ b := by
        rw [hcl]
        exact fun hh => hbc hh.symm
      have hc1 : contrib b rec = 0 := by simp [contrib, hab]
      have hc2 : contrib b { rec with status := newStatus } = 0 := by simp [contrib, hab]
      rw [hc1, hc2, inv.held_eq b acctb hb]
      ring

theorem inv_processTransaction {accounts : AccountMap} {txs : TxMap}
    {t : Transaction} {a' : AccountMap} {x' : TxMap}
    (inv : LedgerInv accounts txs) (hpos : posTx t)
    (h : processTransaction accounts txs t = .ok (a', x')) :
    LedgerInv a' x' := by
  cases t with
  | deposit client tx amount =>
    simp only [processTransaction] at h
    repeat' split at h
    all_goals try exact Except.noConfusion h
    all_goals injection h with h
    all_goals injection h with h1 h2
    all_goals subst h1
    all_goals subst h2
    · rename_i x1 hfresh x2 acct heq hlock
      exact inv.insert_clean client tx .deposit amount _ hpos hfresh
        (inv.held_eq client acct heq)
    · rename_i x1 hfresh x2 heq
      refine inv.insert_clean client tx .deposit amount _ hpos hfresh ?_
      have hnone : ∀ p ∈ txs, (p.2 : TransactionRecord).account ≠ client := by
        intro p hp hpc
        have hs := inv.acct_exists p hp
        rw [hpc, heq] at hs
        simp at hs
      exact (heldSum_eq_zero hnone).symm
  | withdrawal client tx amount =>
    simp only [processTransaction] at h
    repeat' split at h
    all_goals try exact Except.noConfusion h
    all_goals injection h with h
    all_goals injection h with h1 h2
    all_goals subst h1
    all_goals subst h2
    rename_i x1 acct heq hlock hfunds x2 hfresh
    exact inv.insert_clean client tx .withdrawal amount _ hpos hfresh
      (inv.held_eq client acct heq)
  | dispute client tx =>
    simp only [processTransaction] at h
    repeat' split at h
    all_goals try exact Except.noConfusion h
    all_goals injection h with h
    all_goals injection h with h1 h2
    all_goals subst h1
    all_goals subst h2
    · rename_i x1 rec hrec hcl x2 acct heq hlock hclean xk hkind
      refine inv.set_status hrec hcl heq .disputed _ ?_
      simp [contrib, hclean, hcl]
      try ring
    · rename_i x1 rec hrec hcl x2 acct heq hlock hclean xk hkind
      refine inv.set_status hrec hcl heq .disputed _ ?_
      simp [contrib, hclean, hcl]
      try ring
  | resolve client tx =>
    simp only [processTransaction] at h
    repeat' split at h
    all_goals try exact Except.noConfusion h
    all_goals injection h with h
    all_goals injection h with h1 h2
    all_goals subst h1
    all_goals subst h2
    · rename_i x1 rec hrec hcl x2 acct heq hlock hdisp xk hkind
      refine inv.set_status hrec hcl heq .resolved _ ?_
      simp [contrib, hdisp, hcl]
      try ring
    · rename_i x1 rec hrec hcl x2 acct heq hlock hdisp xk hkind
      refine inv.set_status hrec hcl heq .resolved _ ?_
      simp [contrib, hdisp, hcl]
      try ring
  | chargeback client tx =>
    simp only [processTransaction] at h
    repeat' split at h
    all_goals try exact Except.noConfusion h
    all_goals injection h with h
    all_goals injection h with h1 h2
    all_goals subst h1
    all_goals subst h2
    rename_i x1 rec hrec hcl x2 acct heq hlock hdisp
    refine inv.set_status hrec hcl heq .chargedBack _ ?_
    simp [contrib, hdisp, hcl]
    try ring

theorem availNonneg_setA {accounts : AccountMap} (hav : availNonneg accounts)
    {client : AccountId} {acctNew : Account} (hnew : 0 ≤ acctNew.available) :
    availNonneg (setA accounts client acctNew) := by
  intro b acctb hb
  by_cases hbc : b = client
  · subst hbc
    rw [lookupA_setA_self] at hb
    injection hb with hb
    subst hb
    exact hnew
  · rw [lookupA_setA_ne _ _ _ _ hbc] at hb
    exact hav b acctb hb

theorem avail_processTransaction {accounts : AccountMap} {txs : TxMap}
    {t : Transaction} {a' : AccountMap} {x' : TxMap}
    (inv : LedgerInv accounts txs) (hav : availNonneg accounts) (hpos : posTx t)
    (hnd : ∀ c x, t ≠ .dispute c x)
    (h : processTransaction accounts txs t = .ok (a', x')) :
    availNonneg a' := by
  cases t with
  | deposit client tx amount =>
    simp only [posTx] at hpos
    simp only [processTransaction] at h
    repeat' split at h
    all_goals try exact Except.noConfusion h
    all_goals injection h with h
    all_goals injection h with h1 h2
    all_goals subst h1
    all_goals subst h2
    · rename_i x1 hfresh x2 acct heq hlock
      exact availNonneg_setA hav (by have := hav client acct heq; simp; linarith)
    · rename_i x1 hfresh x2 heq
      exact availNonneg_setA hav (le_of_lt hpos)
  | withdrawal client tx amount =>
    simp only [processTransaction] at h
    repeat' split at h
    all_goals try exact Except.noConfusion h
    all_goals injection h with h
    all_goals injection h with h1 h2
    all_goals subst h1
    all_goals subst h2
    rename_i x1 acct heq hlock hfunds x2 hfresh
    rw [not_lt] at hfunds
    exact availNonneg_setA hav (by simp; linarith)
  | dispute client tx =>
    exact absurd rfl (hnd client tx)
  | resolve client tx =>
    simp only [processTransaction] at h
    repeat' split at h
    all_goals try exact Except.noConfusion h
    all_goals injection h with h
    all_goals injection h with h1 h2
    all_goals subst h1
    all_goals subst h2
    · rename_i x1 rec hrec hcl x2 acct heq hlock hdisp xk hkind
      have hamt := inv.amounts_pos (tx, rec) (lookupA_mem hrec)
      have := hav client acct heq
      exact availNonneg_setA hav (by simp; linarith)
    · rename_i x1 rec hrec hcl x2 acct heq hlock hdisp xk hkind
      exact availNonneg_setA hav (by simpa using hav client acct heq)
  | chargeback client tx =>
    simp only [processTransaction] at h
    repeat' split at h
    all_goals try exact Except.noConfusion h
    all_goals injection h with h
    all_goals injection h with h1 h2
    all_goals subst h1
    all_goals subst h2
    rename_i x1 rec hrec hcl x2 acct heq hlock hdisp
    exact availNonneg_setA hav (by simpa using hav client acct heq)

theorem held_nonneg_of_inv {accounts : AccountMap} {txs : TxMap}
    (inv : LedgerInv accounts txs) {a : AccountId} {acct : Account}
    (h : lookupA a accounts = some acct) : 0 ≤ acct.held := by
  rw [inv.held_eq a acct h]
  exact heldSum_nonneg inv.amounts_pos

theorem inv_processRow (s : DriverState) (r : RawInput)
    (inv : LedgerInv s.accounts s.txs) :
    LedgerInv (processRow s r).accounts (processRow s r).txs := by
  cases hp : parseRecord r with
  | error e =>
    simp only [processRow, hp]
    exact inv
  | ok t =>
    cases hr : processTransaction s.accounts s.txs t with
    | error e =>
      simp only [processRow, hp, hr]
      exact inv
    | ok res =>
      obtain ⟨a', x'⟩ := res
      have h2 := inv_processTransaction inv (parse_posTx hp) hr
      simp only [processRow, hp, hr]
      exact h2

theorem avail_processRow (s : DriverState) (r : RawInput)
    (inv : LedgerInv s.accounts s.txs) (hav : availNonneg s.accounts)
    (hnd : isDisputeRow r = false) :
    availNonneg (processRow s r).accounts := by
  cases hp : parseRecord r with
  | error e =>
    simp only [processRow, hp]
    exact hav
  | ok t =>
    cases hr : processTransaction s.accounts s.txs t with
    | error e =>
      simp only [processRow, hp, hr]
      exact hav
    | ok res =>
      obtain ⟨a', x'⟩ := res
      have hndt : ∀ c x, t ≠ .dispute c x := by
        intro c x ht
        subst ht
        rw [parse_isDispute hp] at hnd
        exact Bool.noConfusion hnd
      have h2 := avail_processTransaction inv hav (parse_posTx hp) hndt hr
      simp only [processRow, hp, hr]
      exact h2

theorem inv_processRows (rows : List RawInput) (s : DriverState)
    (inv : LedgerInv s.accounts s.txs) :
    LedgerInv (processRows rows s).accounts (processRows rows s).txs := by
  induction rows generalizing s with
  | nil => exact inv
  | cons r rest ih => exact ih (processRow s r) (inv_processRow s r inv)

theorem avail_processRows (rows : List RawInput) (s : DriverState)
    (inv : LedgerInv s.accounts s.txs) (hav : availNonneg s.accounts)
    (hnd : ∀ r ∈ rows, isDisputeRow r = false) :
    availNonneg (processRows rows s).accounts := by
  induction rows generalizing s with
  | nil => exact hav
  | cons r rest ih =>
    exact ih (processRow s r) (inv_processRow s r inv)
      (avail_processRow s r inv hav (hnd r (by simp)))
      (fun q hq => hnd q (by simp [hq]))

theorem processRow_frame {s : DriverState} {r : RawInput} {a : AccountId}
    (h : rowClient r ≠ some a) :
    lookupA a (processRow s r).accounts = lookupA a s.accounts := by
  cases hp : parseRecord r with
  | error e => simp only [processRow, hp]
  | ok t =>
    cases hr : processTransaction s.accounts s.txs t with
    | error e => simp only [processRow, hp, hr]
    | ok res =>
      obtain ⟨a', x'⟩ := res
      have hc : clientTx t ≠ a := by
        cases r with
        | malformed msg => simp [parseRecord] at hp
        | record ty c tx amt =>
          rw [parse_clientTx hp]
          simp only [rowClient] at h
          exact fun hh => h (by rw [hh])
      have hfr := processTransaction_frame a (fun hh => hc hh.symm) hr
      simp only [processRow, hp, hr]
      exact hfr

theorem processRow_locked {s : DriverState} {r : RawInput} {a : AccountId} {acct : Account}
    (hacct : lookupA a s.accounts = some acct) (hlock : acct.locked = true) :
    lookupA a (processRow s r).accounts = some acct := by
  by_cases hc : rowClient r = some a
  · cases hp : parseRecord r with
    | error e =>
      simp only [processRow, hp]
      exact hacct
    | ok t =>
      cases hr : processTransaction s.accounts s.txs t with
      | error e =>
        simp only [processRow, hp, hr]
        exact hacct
      | ok res =>
        exfalso
        have hct : clientTx t = a := by
          cases r with
          | malformed msg => simp [rowClient] at hc
          | record ty c tx amt =>
            simp only [rowClient, Option.some.injEq] at hc
            rw [parse_clientTx hp, hc]
        rw [← hct] at hacct
        exact processTransaction_locked hacct hlock hr
  · rw [processRow_frame hc, hacct]

theorem processRows_locked {rows : List RawInput} {s : DriverState}
    {a : AccountId} {acct : Account}
    (hacct : lookupA a s.accounts = some acct) (hlock : acct.locked = true) :
    lookupA a (processRows rows s).accounts = some acct := by
  induction rows generalizing s with
  | nil => exact hacct
  | cons r rest ih => exact ih (processRow_locked hacct hlock)

theorem processRows_frame {rows : List RawInput} {s : DriverState} {a : AccountId}
    (h : ∀ r ∈ rows, rowClient r ≠ some a) :
    lookupA a (processRows rows s).accounts = lookupA a s.accounts := by
  induction rows generalizing s with
  | nil => rfl
  | cons r rest ih =>
    show lookupA a (processRows rest (processRow s r)).accounts = _
    rw [ih (fun q hq => h q (by simp [hq])), processRow_frame (h r (by simp))]

theorem processRow_errors (s : DriverState) (r : RawInput) :
    (processRow s r).errors = s.errors ++ rowFailure s r := by
  cases hp : parseRecord r with
  | error e => simp [processRow, rowFailure, hp]
  | ok t =>
    cases hr : processTransaction s.accounts s.txs t with
    | error e => simp [processRow, rowFailure, hp, hr]
    | ok res =>
      obtain ⟨a', x'⟩ := res
      simp [processRow, rowFailure, hp, hr]

theorem processRows_errors (rows : List RawInput) (s : DriverState) :
    (processRows rows s).errors = s.errors ++ failTrace s rows := by
  induction rows generalizing s with
  | nil => simp [processRows, failTrace]
  | cons r rest ih =>
    show (processRows rest (processRow s r)).errors = _
    rw [ih (processRow s r), processRow_errors, failTrace, List.append_assoc]

theorem processRows_append (rows₁ rows₂ : List RawInput) (s : DriverState) :
    processRows (rows₁ ++ rows₂) s = processRows rows₂ (processRows rows₁ s) := by
  induction rows₁ generalizing s with
  | nil => rfl
  | cons r rest ih => simp [processRows, ih]

theorem ledgerInv_empty : LedgerInv ([] : AccountMap) ([] : TxMap) := by
  refine ⟨?_, ?_, ?_⟩
  · intro p hp
    simp at hp
  · intro p hp
    simp at hp
  · intro a acct h
    simp [lookupA] at h

theorem availNonneg_empty : availNonneg ([] : AccountMap) := by
  intro a acct h
  simp [lookupA] at h

/-- Claim C1, counterexample to the claim as stated: in the stream
"deposit 1 on tx 1, withdraw 1 on tx 2, dispute tx 1" (all for client 1)
every instruction succeeds, and the dispute of the deposit whose funds were
already withdrawn drives the available balance to -1 < 0. -/
theorem t_C1_counterexample :
    lookupA 1 (process_csv
        [ .record .deposit 1 1 (some 1),
          .record .withdrawal 1 2 (some 1),
          .record .dispute 1 1 none ] []).1 =
      some ⟨-1, 1, false⟩ ∧
    (process_csv
        [ .record .deposit 1 1 (some 1),
          .record .withdrawal 1 2 (some 1),
          .record .dispute 1 1 none ] []).2 = [] ∧
    ((-1 : Rat) < 0) := by
  refine ⟨?_, ?_, by norm_num⟩ <;>
    norm_num [process_csv, processRows, processRow, parseRecord, processTransaction,
      lookupA, setA]

/-- Claim C1, amended: at every point in the processing of any instruction
stream from the empty initial state, the held balance of every account is
non-negative; the available balance is also non-negative at every point
provided the stream contains no dispute instruction (a successful dispute of
a deposit whose funds were already withdrawn can drive available negative);
and a withdrawal exceeding the available balance of an unlocked existing
account is rejected with an insufficient-funds error rather than clamped. -/
theorem t_C1 :
    (∀ (rows : List RawInput) (k : Nat) (a : AccountId) (acct : Account),
      lookupA a (process_csv (List.take k rows) []).1 = some acct → 0 ≤ acct.held)
    ∧ (∀ (rows : List RawInput) (k : Nat) (a : AccountId) (acct : Account),
      (∀ r ∈ rows, isDisputeRow r = false) →
      lookupA a (process_csv (List.take k rows) []).1 = some acct →
        0 ≤ acct.available)
    ∧ (∀ (accounts : AccountMap) (txs : TxMap) (client : AccountId) (tx : TxId)
        (amount : Rat) (acct : Account),
      lookupA client accounts = some acct → acct.locked = false →
      acct.available < amount →
        processTransaction accounts txs (.withdrawal client tx amount) =
          .error (.insufficientFunds tx client amount acct.available)) := by
  refine ⟨?_, ?_, ?_⟩
  · intro rows k a acct h
    have inv := inv_processRows (List.take k rows) ⟨[], [], []⟩ ledgerInv_empty
    exact held_nonneg_of_inv inv h
  · intro rows k a acct hnd h
    have hav := avail_processRows (List.take k rows) ⟨[], [], []⟩ ledgerInv_empty
      availNonneg_empty (fun r hr => hnd r (List.take_subset k rows hr))
    exact hav a acct h
  · intro accounts txs client tx amount acct hacct hlock hlt
    simp [processTransaction, hacct, hlock, hlt]

/-- Witness for the amended claim C1 at concrete inputs: a single deposit of
1 for client 1 leaves held = 0 ≥ 0 and available = 1 ≥ 0, and a withdrawal
of 3 against an unlocked account with 0 available is rejected with the
insufficient-funds error carrying the requested amount and the account. -/
theorem t_C1_witness :
    (0 ≤ (Account.mk 1 0 false).held)
    ∧ (0 ≤ (Account.mk 1 0 false).available)
    ∧ (processTransaction [(1, Account.mk 0 0 false)] [] (.withdrawal 1 5 3) =
        .error (.insufficientFunds 5 1 3 0)) :=
  ⟨t_C1.1 [.record .deposit 1 1 (some 1)] 1 1 (Account.mk 1 0 false)
      (by norm_num [process_csv, processRows, processRow, parseRecord,
        processTransaction, lookupA, setA]),
   t_C1.2.1 [.record .deposit 1 1 (some 1)] 1 1 (Account.mk 1 0 false)
      (by intro r hr; simp at hr; subst hr; rfl)
      (by norm_num [process_csv, processRows, processRow, parseRecord,
        processTransaction, lookupA, setA]),
   t_C1.2.2 [(1, Account.mk 0 0 false)] [] 1 5 3 (Account.mk 0 0 false)
      rfl rfl (by norm_num)⟩

/-- Claim C2: at every point in the processing of any instruction stream,
the total of every account equals its available plus its held balance; total is a
derived query, never stored. -/
theorem t_C2 :
    ∀ (rows : List RawInput) (k : Nat) (a : AccountId) (acct : Account),
      lookupA a (process_csv (List.take k rows) []).1 = some acct →
        acct.total = acct.available + acct.held :=
  fun _ _ _ _ _ => rfl

/-- Witness for claim C2 at a concrete input: after a single deposit of 1
for client 1, the total of the account is its available plus its held balance. -/
theorem t_C2_witness :
    (Account.mk 1 0 false).total = (Account.mk 1 0 false).available +
      (Account.mk 1 0 false).held :=
  t_C2 [.record .deposit 1 1 (some 1)] 1 1 (Account.mk 1 0 false)
    (by norm_num [process_csv, processRows, processRow, parseRecord,
      processTransaction, lookupA, setA])

/-- Claim C3, lock finality: from any driver state in which account `a` is
stored locked, processing any further row sequence leaves the stored entry
of `a` exactly as it was — same available, same held, and the locked flag
still set — because the locked-account rejection fires before any balance
mutation. -/
theorem t_C3 :
    ∀ (s : DriverState) (rows : List RawInput) (a : AccountId) (acct : Account),
      lookupA a s.accounts = some acct → acct.locked = true →
        lookupA a (processRows rows s).accounts = some acct :=
  fun _ _ _ _ h1 h2 => processRows_locked h1 h2

/-- Witness for claim C3 at a concrete input: a locked account with balances
(2, 0) survives a further deposit, withdrawal, dispute and chargeback
targeting it completely unchanged. -/
theorem t_C3_witness :
    lookupA 1 (processRows
        [ .record .deposit 1 7 (some 5),
          .record .withdrawal 1 8 (some 1),
          .record .dispute 1 7 none,
          .record .chargeback 1 7 none ]
        ⟨[(1, Account.mk 2 0 true)], [], []⟩).accounts =
      some (Account.mk 2 0 true) :=
  t_C3 ⟨[(1, Account.mk 2 0 true)], [], []⟩
    [ .record .deposit 1 7 (some 5),
      .record .withdrawal 1 8 (some 1),
      .record .dispute 1 7 none,
      .record .chargeback 1 7 none ] 1 (Account.mk 2 0 true) rfl rfl

/-- Claim C4, atomicity: for every driver state and input row, a parse
failure or a ledger rejection appends exactly one failure and leaves the
account map and the transaction table exactly as they were, while a success
installs exactly the committed pair returned by the ledger. -/
theorem t_C4 :
    ∀ (s : DriverState) (r : RawInput),
      (∀ e, parseRecord r = .error e →
        processRow s r = { s with errors := s.errors ++ [.parse e] })
      ∧ (∀ t e, parseRecord r = .ok t →
          processTransaction s.accounts s.txs t = .error e →
          processRow s r = { s with errors := s.errors ++ [.logic e] })
      ∧ (∀ t res, parseRecord r = .ok t →
          processTransaction s.accounts s.txs t = .ok res →
          processRow s r =
            { accounts := res.1, txs := res.2, errors := s.errors }) := by
  intro s r
  refine ⟨?_, ?_, ?_⟩
  · intro e hp
    simp [processRow, hp]
  · intro t e hp hr
    simp [processRow, hp, hr]
  · intro t res hp hr
    obtain ⟨a', x'⟩ := res
    simp [processRow, hp, hr]

/-- Witness for claim C4 at a concrete input: a withdrawal against a missing
account is rejected by the ledger, and the driver keeps the (empty) account
map and transaction table unchanged while appending the single failure. -/
theorem t_C4_witness :
    processRow ⟨[], [], []⟩ (.record .withdrawal 1 5 (some 3)) =
      ⟨[], [], [.logic (.accountNotFound 1)]⟩ :=
  (t_C4 ⟨[], [], []⟩ (.record .withdrawal 1 5 (some 3))).2.1
    (.withdrawal 1 5 3) (.accountNotFound 1)
    (by norm_num [parseRecord])
    (by norm_num [processTransaction, lookupA])

/-- Claim C5, Scenario B followed by chargeback: the stream "deposit 1.0001
on tx 1 for client 1, dispute tx 1, chargeback tx 1" processed from the
empty state leaves client 1 with available = 0, held = 0 and the locked flag
set, and produces no failures. -/
theorem t_C5 :
    lookupA 1 (process_csv
        [ .record .deposit 1 1 (some 1.0001),
          .record .dispute 1 1 none,
          .record .chargeback 1 1 none ] []).1 =
      some ⟨0, 0, true⟩ ∧
    (process_csv
        [ .record .deposit 1 1 (some 1.0001),
          .record .dispute 1 1 none,
          .record .chargeback 1 1 none ] []).2 = [] := by
  constructor <;>
    norm_num [process_csv, processRows, processRow, parseRecord, processTransaction,
      lookupA, setA]

/-- Claim C6: a withdrawal whose amount exceeds the available balance of its
existing, unlocked target account is processed into exactly one
insufficient-funds failure carrying the requested amount, the account and
the transaction id, and the account map (hence the available balance) is
left unchanged. -/
theorem t_C6 :
    ∀ (s : DriverState) (client : AccountId) (tx : TxId) (amount : Rat) (acct : Account),
      lookupA client s.accounts = some acct → acct.locked = false →
      0 < amount → acct.available < amount →
        processRow s (.record .withdrawal client tx (some amount)) =
          { s with errors :=
              s.errors ++ [.logic (.insufficientFunds tx client amount acct.available)] } := by
  intro s client tx amount acct hacct hlock hpos hlt
  have hna : ¬ amount ≤ 0 := not_le.mpr hpos
  simp [processRow, parseRecord, processTransaction, hna, hacct, hlock, hlt]

/-- Witness for claim C6 at a concrete input: withdrawing 3 from an account
holding 0 available produces the single insufficient-funds failure naming
transaction 5, account 1 and amount 3, and changes nothing else. -/
theorem t_C6_witness :
    processRow ⟨[(1, Account.mk 0 0 false)], [], []⟩ (.record .withdrawal 1 5 (some 3)) =
      ⟨[(1, Account.mk 0 0 false)], [], [.logic (.insufficientFunds 5 1 3 0)]⟩ :=
  t_C6 ⟨[(1, Account.mk 0 0 false)], [], []⟩ 1 5 3 (Account.mk 0 0 false)
    rfl rfl (by norm_num) (by norm_num)

/-- Claim C7, non-fatal failure accumulation: the failure list of a full run
is the initial list followed by the per-row failure trace in input order
(each row contributing its parse failure or its ledger failure, if any), and
the driver always continues: processing a concatenation is processing the
first part and then the second, one row at a time. -/
theorem t_C7 :
    (∀ (rows : List RawInput) (s : DriverState),
      (processRows rows s).errors = s.errors ++ failTrace s rows)
    ∧ (∀ (s : DriverState) (rows₁ rows₂ : List RawInput),
      processRows (rows₁ ++ rows₂) s = processRows rows₂ (processRows rows₁ s))
    ∧ (∀ (s : DriverState) (r : RawInput) (rest : List RawInput),
      processRows (r :: rest) s = processRows rest (processRow s r)) :=
  ⟨processRows_errors, fun s rows₁ rows₂ => processRows_append rows₁ rows₂ s,
    fun _ _ _ => rfl⟩

/-- Claim C8: a deposit or withdrawal row with a missing amount fails with
the missing-amount parse failure, one with a non-positive amount fails with
the distinct non-positive-amount parse failure, and in both cases the
account map and transaction table are untouched. -/
theorem t_C8 :
    (∀ (s : DriverState) (ty : RecordType) (client : AccountId) (tx : TxId),
      (ty = .deposit ∨ ty = .withdrawal) →
        processRow s (.record ty client tx none) =
          { s with errors := s.errors ++ [.parse .amountMissing] })
    ∧ (∀ (s : DriverState) (ty : RecordType) (client : AccountId) (tx : TxId) (a : Rat),
      (ty = .deposit ∨ ty = .withdrawal) → a ≤ 0 →
        processRow s (.record ty client tx (some a)) =
          { s with errors := s.errors ++ [.parse .amountNotPositive] })
    ∧ ParseError.amountMissing ≠ ParseError.amountNotPositive := by
  refine ⟨?_, ?_, by simp⟩
  · intro s ty client tx hty
    rcases hty with h | h <;> subst h <;> simp [processRow, parseRecord]
  · intro s ty client tx a hty ha
    rcases hty with h | h <;> subst h <;> simp [processRow, parseRecord, ha]

/-- Witness for claim C8 at concrete inputs: a deposit with no amount fails
with the missing-amount failure, and a withdrawal of -2 fails with the
non-positive-amount failure; both leave the empty state otherwise empty. -/
theorem t_C8_witness :
    (processRow ⟨[], [], []⟩ (.record .deposit 1 1 none) =
      ⟨[], [], [.parse .amountMissing]⟩)
    ∧ (processRow ⟨[], [], []⟩ (.record .withdrawal 1 2 (some (-2))) =
      ⟨[], [], [.parse .amountNotPositive]⟩) :=
  ⟨t_C8.1 ⟨[], [], []⟩ .deposit 1 1 (Or.inl rfl),
   t_C8.2.1 ⟨[], [], []⟩ .withdrawal 1 2 (-2) (Or.inr rfl) (by norm_num)⟩

/-- Claim C9: the per-account output lines of `main` are a function of the
enumeration order of the final account map, and two different orders of the
same two-account result produce different line sequences; the code fixes no
enumeration order (it iterates a `HashMap` seeded per process), so identical
output across runs is not guaranteed. -/
theorem t_C9 :
    outputLines (process_csv
        [ .record .deposit 1 1 (some 1), .record .deposit 2 2 (some 2) ] []).1 [1, 2] ≠
      outputLines (process_csv
        [ .record .deposit 1 1 (some 1), .record .deposit 2 2 (some 2) ] []).1 [2, 1] := by
  norm_num [outputLines, process_csv, processRows, processRow, parseRecord,
    processTransaction, lookupA, setA, Account.total, List.filterMap]

/-- Claim C10, frame property of `process_csv`: an account of the initial
map whose id is targeted by no row of the stream is present and unchanged in
the returned map, and an empty stream returns the initial map together with
an empty failure list. -/
theorem t_C10 :
    (∀ (accounts : AccountMap) (rows : List RawInput) (a : AccountId),
      (∀ r ∈ rows, rowClient r ≠ some a) →
        lookupA a (process_csv rows accounts).1 = lookupA a accounts)
    ∧ (∀ accounts : AccountMap, process_csv [] accounts = (accounts, [])) := by
  constructor
  · intro accounts rows a h
    exact processRows_frame h
  · intro accounts
    rfl

/-- Witness for claim C10 at a concrete input: account 7 of the initial map
is untouched by a stream that only deposits for client 1. -/
theorem t_C10_witness :
    lookupA 7 (process_csv [.record .deposit 1 1 (some 1)]
        [(7, Account.mk 3 1 false)]).1 =
      lookupA 7 [(7, Account.mk 3 1 false)] :=
  t_C10.1 [(7, Account.mk 3 1 false)] [.record .deposit 1 1 (some 1)] 7
    (by
      intro r hr
      simp at hr
      subst hr
      simp [rowClient])

end TxProc
